import Mathlib

/-!
# DeversiFi REST client (`client.go`, package `dvfapi`)

A shallow embedding of the request builder, the request dispatcher, the
websocket endpoint lookup and the two signing routines of `client.go`,
followed by the properties proved about them.

Conventions of the embedding

* A Go `string` is a Lean `String`; its bytes are the UTF-8 encoding of its
  code points (`bytesOf`).  Go strings holding invalid UTF-8 are outside the
  model.
* A Go `[]byte` is a `List Nat` of values below 256.
* A Go `*big.Int` is an `Int`.
* A Go `error` is its message (`Error := String`); a Go result pair
  `(T, error)` is a Lean pair `T × Option Error`, `none` standing for `nil`.
* A Go `map[string]string` is an association list with pairwise distinct keys;
  the order of the list is the order in which one `range` loop visits it.
* The standard-library and go-ethereum routines the file calls are modelled
  after their documented behaviour (`net/url`, `net/http`, `encoding/hex`,
  `math/big`, `crypto.HexToECDSA`); the elliptic-curve primitives and the HTTP
  transport are parameters.
-/

namespace dvfapi

/-! ## Strings, bytes and hexadecimal -/

/-- The error type: the message of a Go `error`. -/
abbrev Error := String

/-- UTF-8 encoding of one code point, as Go stores it inside a `string`. -/
def utf8Char (c : Char) : List Nat :=
  let v := c.toNat
  if v < 0x80 then [v]
  else if v < 0x800 then [0xC0 + v / 0x40, 0x80 + v % 0x40]
  else if v < 0x10000 then [0xE0 + v / 0x1000, 0x80 + v / 0x40 % 0x40, 0x80 + v % 0x40]
  else [0xF0 + v / 0x40000, 0x80 + v / 0x1000 % 0x40, 0x80 + v / 0x40 % 0x40, 0x80 + v % 0x40]

/-- The bytes of a Go string (`[]byte(s)`). -/
def bytesOf (s : String) : List Nat :=
  s.data.flatMap utf8Char

/-- `String2Bytes` (client.go:116): reinterprets the string header as a slice
header, so the slice has exactly the bytes of the string. -/
def String2Bytes (s : String) : List Nat :=
  bytesOf s

/-- Digit table of `encoding/hex` and of the `%x` verb. -/
def lowerhex : List Char := "0123456789abcdef".data

/-- Digit table of `net/url` (`upperhex`). -/
def upperhex : List Char := "0123456789ABCDEF".data

/-- Two lowercase hex digits of one byte. -/
def hexByte (b : Nat) : List Char :=
  [lowerhex.getD (b / 16) '0', lowerhex.getD (b % 16) '0']

/-- `hex.EncodeToString`, also what `fmt.Sprintf("%x", b)` prints for a byte
slice `b`: two lowercase digits per byte. -/
def hexEncode (b : List Nat) : String :=
  ⟨b.flatMap hexByte⟩

/-- Worker of `natBytes`: peels off the low byte `fuel` times. -/
def natBytesAux : Nat → Nat → List Nat → List Nat
  | 0, _, acc => acc
  | fuel + 1, n, acc => if n = 0 then acc else natBytesAux fuel (n / 256) (n % 256 :: acc)

/-- Big-endian bytes of a natural number without leading zero bytes; the empty
slice for zero. -/
def natBytes (n : Nat) : List Nat :=
  natBytesAux n n []

/-- `(*big.Int).Bytes`: the absolute value as a big-endian byte slice. -/
def bigBytes (x : Int) : List Nat :=
  natBytes x.natAbs

/-- Value of a big-endian byte slice (`(*big.Int).SetBytes`). -/
def bigSetBytes (b : List Nat) : Nat :=
  b.foldl (fun acc d => acc * 256 + d) 0

/-! ## `net/url`: escaping, query values, printing a URL -/

/-- The escaping modes of `net/url` that the request builder reaches. -/
inductive encoding where
  | encodePath
  | encodeHost
  | encodeQueryComponent
  deriving DecidableEq, Repr

/-- ASCII letters and digits (RFC 3986 §2.3, alphanum). -/
def isAlnum (c : Nat) : Bool :=
  ('a'.toNat ≤ c && c ≤ 'z'.toNat) || ('A'.toNat ≤ c && c ≤ 'Z'.toNat) ||
    ('0'.toNat ≤ c && c ≤ '9'.toNat)

/-- Bytes a host may carry unescaped: the sub-delims, colon, brackets, angle
brackets and the double quote (34); 39 is the single quote. -/
def hostBytes : List Nat :=
  ['!'.toNat, '$'.toNat, '&'.toNat, 39, '('.toNat, ')'.toNat, '*'.toNat, '+'.toNat,
    ','.toNat, ';'.toNat, '='.toNat, ':'.toNat, '['.toNat, ']'.toNat, '<'.toNat, '>'.toNat, 34]

/-- Unreserved marks (RFC 3986 §2.3). -/
def markBytes : List Nat :=
  ['-'.toNat, '_'.toNat, '.'.toNat, '~'.toNat]

/-- Reserved characters (RFC 3986 §2.2). -/
def reservedBytes : List Nat :=
  ['$'.toNat, '&'.toNat, '+'.toNat, ','.toNat, '/'.toNat, ':'.toNat, ';'.toNat, '='.toNat,
    '?'.toNat, '@'.toNat]

/-- `shouldEscape` of `net/url`: whether byte `c` must be percent-escaped in
the given part of a URL. -/
def shouldEscape (c : Nat) (mode : encoding) : Bool :=
  if isAlnum c then false
  else if mode = encoding.encodeHost ∧ c ∈ hostBytes then false
  else if c ∈ markBytes then false
  else if c ∈ reservedBytes then
    match mode with
    | encoding.encodePath => c == '?'.toNat
    | encoding.encodeHost => true
    | encoding.encodeQueryComponent => true
  else true

/-- One step of the loop of `escape`: a space in a query component becomes
a plus sign, an escaped byte becomes a percent sign and two uppercase hex digits,
any other byte is copied. -/
def escapeByte (mode : encoding) (c : Nat) : List Char :=
  if c = ' '.toNat ∧ mode = encoding.encodeQueryComponent then ['+']
  else if shouldEscape c mode then ['%', upperhex.getD (c / 16) '0', upperhex.getD (c % 16) '0']
  else [Char.ofNat c]

/-- `escape` of `net/url`, byte by byte over the string. -/
def escape (s : String) (mode : encoding) : String :=
  ⟨(bytesOf s).flatMap (escapeByte mode)⟩

/-- `url.QueryEscape`. -/
def QueryEscape (s : String) : String :=
  escape s encoding.encodeQueryComponent

/-- Go's order on strings: lexicographic on bytes. -/
def goStringLE (a b : String) : Prop :=
  bytesOf a ≤ bytesOf b

instance goStringLE.decidable : DecidableRel goStringLE :=
  fun a b => inferInstanceAs (Decidable (bytesOf a ≤ bytesOf b))

/-- `slices.Sort` on a slice of strings: ascending. -/
def sortStrings (keys : List String) : List String :=
  keys.insertionSort goStringLE

/-- `url.Values`, a `map[string][]string`. -/
abbrev Values := List (String × List String)

/-- `Values.Set`: the key now maps to the single value. -/
def Values.Set (v : Values) (key value : String) : Values :=
  if key ∈ v.map Prod.fst then v.map (fun e => if e.1 = key then (key, [value]) else e)
  else v ++ [(key, [value])]

/-- `Values.Encode`: the keys are sorted, and every `key=value` pair is written
escaped into the buffer, an ampersand before each one but the first. -/
def Values.Encode (v : Values) : String :=
  if v.length = 0 then ""
  else
    let keys := sortStrings (v.map Prod.fst)
    keys.foldl (fun buf k =>
      let vs := (v.lookup k).getD []
      let keyEscaped := QueryEscape k
      vs.foldl (fun buf x =>
        (if buf.length > 0 then buf ++ "&" else buf) ++ keyEscaped ++ "=" ++ QueryEscape x) buf) ""

/-- The fields of `url.URL` that the request builder touches; `Opaque`, `User`,
`RawPath`, `ForceQuery`, `OmitHost` and `Fragment` keep their zero values. -/
structure URL where
  Scheme : String
  Host : String
  Path : String
  RawQuery : String
  deriving DecidableEq, Repr

/-- `(*URL).EscapedPath` with an empty `RawPath`. -/
def URL.EscapedPath (u : URL) : String :=
  if u.Path = "*" then "*" else escape u.Path encoding.encodePath

/-- `(*URL).String`. -/
def URL.String (u : URL) : String :=
  let buf := if u.Scheme ≠ "" then u.Scheme ++ ":" else ""
  let buf :=
    if u.Scheme ≠ "" ∨ u.Host ≠ "" then
      let buf := if u.Host ≠ "" ∨ u.Path ≠ "" then buf ++ "//" else buf
      if u.Host ≠ "" then buf ++ escape u.Host encoding.encodeHost else buf
    else buf
  let path := u.EscapedPath
  let buf := if path ≠ "" ∧ path.data.head? ≠ some '/' ∧ u.Host ≠ "" then buf ++ "/" else buf
  let buf :=
    if buf.length = 0 ∧ ':' ∈ path.data.takeWhile (fun c => c ≠ '/') then buf ++ "./" else buf
  let buf := buf ++ path
  if u.RawQuery ≠ "" then buf ++ "?" ++ u.RawQuery else buf

/-! ## `net/http`: requests and responses -/

/-- `http.Header`, a `map[string][]string`. -/
abbrev Header := List (String × List String)

/-- `Header.Add` for a key already in canonical form: appends the value to the
values of the key. -/
def Header.Add (h : Header) (key value : String) : Header :=
  if key ∈ h.map Prod.fst then h.map (fun e => if e.1 = key then (key, e.2 ++ [value]) else e)
  else h ++ [(key, [value])]

/-- An outgoing `http.Request`: method, URL in its printed form, headers and body. -/
structure Request where
  Method : String
  URL : String
  Header : Header
  Body : List Nat
  deriving DecidableEq, Repr

/-- An `http.Response` as far as the dispatcher reads it. -/
structure Response where
  Status : String
  StatusCode : Int
  Body : List Nat
  deriving DecidableEq, Repr

/-- Token characters of an HTTP method (`httpguts.IsTokenRune`); 39 is the
single quote, 96 the grave accent. -/
def isTokenRune (c : Char) : Bool :=
  isAlnum c.toNat ||
    c.toNat ∈ ['!'.toNat, '#'.toNat, '$'.toNat, '%'.toNat, '&'.toNat, 39, '*'.toNat, '+'.toNat,
      '-'.toNat, '.'.toNat, '^'.toNat, '_'.toNat, 96, '|'.toNat, '~'.toNat]

/-- `validMethod` of `net/http`: a non-empty token. -/
def validMethod (method : String) : Bool :=
  method.length > 0 && method.data.all isTokenRune

/-- `strconv.Quote` as the verb `%q` prints a string, exact on strings of
printable ASCII characters: the string between double quotes (34), a backslash
(92) before every double quote and backslash.  Characters outside printable
ASCII are copied here, where the library writes an escape sequence for those
that are not printable. -/
def quoteString (s : String) : String :=
  let dq := Char.ofNat 34
  let bs := Char.ofNat 92
  ⟨[dq] ++ s.data.flatMap (fun c => if c = dq ∨ c = bs then [bs, c] else [c]) ++ [dq]⟩

/-- `http.NewRequest`.  An empty method means GET and a method that is not a
token is refused, the error quoting the method.  The URL string is parsed and
stored; every string that `URL.String` prints for a URL with scheme and host
parses, and prints back as itself, so the request keeps the string. -/
def NewRequest (method url : String) (body : List Nat) : Except Error Request :=
  let method := if method = "" then "GET" else method
  if !validMethod method then
    Except.error ("net/http: invalid method " ++ quoteString method)
  else Except.ok { Method := method, URL := url, Header := [], Body := body }

/-! ## `client.go` -/

/-- The constant `ENDPOINT` (client.go:25). -/
def ENDPOINT : String := "https://api.deversifi.com"

/-- What `url.ParseRequestURI(ENDPOINT)` returns: scheme and host, no path and
no query. -/
def parsedENDPOINT : URL :=
  { Scheme := "https", Host := "api.deversifi.com", Path := "", RawQuery := "" }

/-- The HTTP transport `*http.Client`: `Do` sends a request and yields a
response or a transport error. -/
structure HTTPClient where
  Do : Request → Except Error Response

/-- The struct `Client` (client.go:28). -/
structure Client where
  privateKey : String
  subaccount : String
  HTTPC : HTTPClient

/-- The method `Headers` (client.go:100). -/
def Client.Headers (_c : Client) (request : Request) : Request :=
  let request := { request with Header := request.Header.Add "Accept" "application/json" }
  { request with Header := request.Header.Add "Content-Type" "application/json; charset=UTF-8" }

/-- The method `newRequest` (client.go:45).  `params` is `none` for a nil pointer;
the list order is the order in which the `range` loop visits the map. -/
def Client.newRequest (p : Client) (method spath : String) (body : List Nat)
    (params : Option (List (String × String))) : Except Error Request :=
  let u := parsedENDPOINT
  let u := { u with Path := u.Path ++ spath }
  let u :=
    match params with
    | some m =>
      -- `u.Query()` of an empty `RawQuery` is the empty map
      let q : Values := []
      let q := m.foldl (fun (q : Values) (kv : String × String) => Values.Set q kv.1 kv.2) q
      { u with RawQuery := q.Encode }
    | none => u
  match NewRequest method u.String body with
  | Except.error err => Except.error err
  | Except.ok req => Except.ok (p.Headers req)

/-- The method `sendRequest` (client.go:64). -/
def Client.sendRequest (c : Client) (method spath : String) (body : List Nat)
    (params : Option (List (String × String))) : Option Response × Option Error :=
  match c.newRequest method spath body params with
  | Except.error err => (none, some err)
  | Except.ok req =>
    match c.HTTPC.Do req with
    | Except.error err => (none, some err)
    | Except.ok res =>
      if res.StatusCode ≠ 200 then
        (none, some ("faild to get data. status: " ++ res.Status))
      else (some res, none)

/-- The function `SocketEndPointHub` (client.go:105): the named result starts
as the empty string and only the default case assigns it. -/
def SocketEndPointHub (priv : Bool) : String :=
  let endpoint := ""
  match priv with
  | true => endpoint
  | false => "wss://api.deversifi.com/market-data/ws"

/-! ## `encoding/hex` decoding and go-ethereum `crypto.HexToECDSA` -/

/-- Value of a hex digit given as a byte (`reverseHexTable`), upper or lower
case; `none` for any other byte. -/
def fromHexChar (c : Nat) : Option Nat :=
  if '0'.toNat ≤ c ∧ c ≤ '9'.toNat then some (c - '0'.toNat)
  else if 'a'.toNat ≤ c ∧ c ≤ 'f'.toNat then some (c - 'a'.toNat + 10)
  else if 'A'.toNat ≤ c ∧ c ≤ 'F'.toNat then some (c - 'A'.toNat + 10)
  else none

/-- The two errors of `encoding/hex`. -/
inductive HexError where
  | InvalidByteError (b : Nat)
  | ErrLength
  deriving DecidableEq, Repr

/-- `hex.Decode`: pairs of digits from the left; the first byte that is not a
hex digit is reported, an odd length is reported after that. -/
def hexDecode : List Nat → Except HexError (List Nat)
  | [] => Except.ok []
  | [p] =>
    match fromHexChar p with
    | none => Except.error (HexError.InvalidByteError p)
    | some _ => Except.error HexError.ErrLength
  | p :: q :: rest =>
    match fromHexChar p, fromHexChar q with
    | none, _ => Except.error (HexError.InvalidByteError p)
    | some _, none => Except.error (HexError.InvalidByteError q)
    | some a, some b =>
      match hexDecode rest with
      | Except.error e => Except.error e
      | Except.ok out => Except.ok ((a * 16 + b) :: out)

/-- `hex.DecodeString`. -/
def hexDecodeString (s : String) : Except HexError (List Nat) :=
  hexDecode (bytesOf s)

/-- `ecdsa.PublicKey`: the two coordinates. -/
structure PublicKey where
  X : Int
  Y : Int
  deriving DecidableEq, Repr

/-- `ecdsa.PrivateKey`: the embedded public key and the scalar `D`. -/
structure PrivateKey where
  PublicKey : PublicKey
  D : Int
  deriving DecidableEq, Repr

/-- The elliptic-curve primitives the signer calls, as parameters:
`ScalarBaseMult` of the curve (`none` when it yields no point), `ecdsa.Sign`
reading its nonce from the entropy `rand`, and `ecdsa.Verify`. -/
structure Curve where
  ScalarBaseMult : List Nat → Option (Int × Int)
  Sign : List Nat → PrivateKey → List Nat → Except Error (Int × Int)
  Verify : PublicKey → List Nat → Int → Int → Bool

/-- Order of the group of secp256k1. -/
def secp256k1N : Nat :=
  0xFFFFFFFFFFFFFFFFFFFFFFFFFFFFFFFEBAAEDCE6AF48A03BBFD25E8CD0364141

/-- `crypto.ToECDSA` of go-ethereum: exactly 256 bits, `0 < D < N`, and the
public key is the base point multiplied by `D`. -/
def ToECDSA (cv : Curve) (d : List Nat) : Except Error PrivateKey :=
  if 8 * d.length ≠ 256 then Except.error "invalid length, need 256 bits"
  else
    let D := bigSetBytes d
    if D ≥ secp256k1N then Except.error "invalid private key, >=N"
    else if D = 0 then Except.error "invalid private key, zero or negative"
    else
      match cv.ScalarBaseMult d with
      | none => Except.error "invalid private key"
      | some (x, y) => Except.ok { PublicKey := { X := x, Y := y }, D := D }

/-- `strconv.QuoteRune` on a rune below 256, which is how the verb `%q` prints
a byte: the rune between single quotes; the quote (39) and the backslash (92)
get a backslash, a printable rune is written as it is, the control characters 7
to 13 have their letter, the other ones and 127 are written `\x` and two hex
digits, and what is left (128 to 160, 173) `\u00` and two hex digits. -/
def quoteByte (b : Nat) : String :=
  let bs := String.singleton (Char.ofNat 92)
  let body : String :=
    if b = 39 ∨ b = 92 then bs ++ String.singleton (Char.ofNat b)
    else if (0x20 ≤ b ∧ b ≤ 0x7E) ∨ (0xA1 ≤ b ∧ b ≤ 0xFF ∧ b ≠ 0xAD) then
      String.singleton (Char.ofNat b)
    else if b = 7 then bs ++ "a"
    else if b = 8 then bs ++ "b"
    else if b = 9 then bs ++ "t"
    else if b = 10 then bs ++ "n"
    else if b = 11 then bs ++ "v"
    else if b = 12 then bs ++ "f"
    else if b = 13 then bs ++ "r"
    else if b < 0x20 ∨ b = 0x7F then bs ++ "x" ++ ⟨hexByte b⟩
    else bs ++ "u00" ++ ⟨hexByte b⟩
  String.singleton (Char.ofNat 39) ++ body ++ String.singleton (Char.ofNat 39)

/-- `crypto.HexToECDSA` of go-ethereum: hex-decodes the key, then `ToECDSA`. -/
def HexToECDSA (cv : Curve) (hexkey : String) : Except Error PrivateKey :=
  match hexDecodeString hexkey with
  | Except.error (HexError.InvalidByteError b) =>
    Except.error ("invalid hex character " ++ quoteByte b ++ " in private key")
  | Except.error HexError.ErrLength => Except.error "invalid hex data for private key"
  | Except.ok b => ToECDSA cv b

/-! ## The signer of `client.go` -/

/-- The bytes both signing routines format (client.go:146-148 and 170-172):
the label followed by the hex digits of the bytes of `r` and then of `s`. -/
def signatureString (r s : Int) : String :=
  let signature := bigBytes r
  let signature := signature ++ bigBytes s
  "Signature : " ++ hexEncode signature

/-- The message of the self-check error (client.go:152 and 176). -/
def errVerify : Error := "didn't pass verifystatus"

/-- The method `sign` (client.go:131); `rand` is what `rand.Reader` delivers
during the call. -/
def Client.sign (cv : Curve) (rand : List Nat) (p : Client) (message : String) :
    String × Option Error :=
  match HexToECDSA cv p.privateKey with
  | Except.error err => ("", some err)
  | Except.ok privatekey =>
    let signhash := String2Bytes message
    let pubkey := privatekey.PublicKey
    match cv.Sign rand privatekey signhash with
    | Except.error serr => ("", some serr)
    | Except.ok (r, s) =>
      let result := signatureString r s
      let verifystatus := cv.Verify pubkey signhash r s
      if !verifystatus then ("", some errVerify)
      else (result, none)

/-- The method `signAndPublicKey` (client.go:158). -/
def Client.signAndPublicKey (cv : Curve) (rand : List Nat) (p : Client) (message : String) :
    String × String × Option Error :=
  match HexToECDSA cv p.privateKey with
  | Except.error err => ("", "", some err)
  | Except.ok privatekey =>
    let signhash := String2Bytes message
    let pubkey := privatekey.PublicKey
    match cv.Sign rand privatekey signhash with
    | Except.error serr => ("", "", some serr)
    | Except.ok (r, s) =>
      let result := signatureString r s
      let verifystatus := cv.Verify pubkey signhash r s
      if !verifystatus then ("", "", some errVerify)
      else
        let publicKey := hexEncode (bigBytes pubkey.X ++ bigBytes pubkey.Y)
        (result, publicKey, none)

/-! ## Predicates used in the statements -/

/-- A character that is a hexadecimal digit, upper or lower case. -/
def isHexDigit (c : Char) : Bool :=
  (fromHexChar c.toNat).isSome

/-- A private-key string is malformed when it holds a character that is not a
hex digit or when it is not 64 characters long. -/
def malformedKey (k : String) : Prop :=
  (∃ c ∈ k.data, isHexDigit c = false) ∨ k.length ≠ 64

instance malformedKey.decidable (k : String) : Decidable (malformedKey k) :=
  inferInstanceAs (Decidable ((∃ c ∈ k.data, isHexDigit c = false) ∨ k.length ≠ 64))

/-! ## Concrete inputs on which the statements are evaluated -/

/-- A stand-in for the curve primitives: the point of the scalar `d` has the
first coordinate `d + 0x0101` and the second coordinate 3, the signature pair is
fixed, and the verification answers `verifies`. -/
def sampleCurve (verifies : Bool) : Curve :=
  { ScalarBaseMult := fun d => some ((bigSetBytes d : Int) + 0x0101, 3)
    Sign := fun _ _ _ => Except.ok (1, 0x0203)
    Verify := fun _ _ _ _ => verifies }

/-- A well-formed private key: 64 hex digits, the scalar one. -/
def sampleKey : String :=
  "0000000000000000000000000000000000000000000000000000000000000001"

/-- A second well-formed private key, with digits in both cases: the scalar
`0x0a0b`. -/
def sampleKeyMixed : String :=
  "0000000000000000000000000000000000000000000000000000000000000A0b"

/-- A transport that answers every request with the given status. -/
def sampleTransport (code : Int) (status : String) : HTTPClient :=
  { Do := fun _ => Except.ok { Status := status, StatusCode := code, Body := [] } }

/-- A client with the given key whose transport answers 404. -/
def sampleClient (key : String) : Client :=
  { privateKey := key, subaccount := "sub", HTTPC := sampleTransport 404 "404 Not Found" }

/-- One `key=value` segment of an encoded query string. -/
def querySegment (kv : String × String) : String :=
  QueryEscape kv.1 ++ "=" ++ QueryEscape kv.2

/-- The parameters of a map in the order of their sorted keys. -/
def sortedParams (m : List (String × String)) : List (String × String) :=
  (sortStrings (m.map Prod.fst)).map (fun k => (k, (m.lookup k).getD ""))

/-- A relative path that `net/url` prints as it stands: empty or starting with
a slash, and made of bytes that need no escaping inside a path (ASCII letters,
digits and `- _ . ~ $ & + , / : ; = @`). -/
def validPath (spath : String) : Prop :=
  (spath = "" ∨ spath.data.head? = some '/') ∧
    ∀ b ∈ bytesOf spath, shouldEscape b encoding.encodePath = false

instance validPath.decidable (spath : String) : Decidable (validPath spath) :=
  inferInstanceAs (Decidable ((spath = "" ∨ spath.data.head? = some '/') ∧
    ∀ b ∈ bytesOf spath, shouldEscape b encoding.encodePath = false))

/-- The URL of the endpoint with a path and a raw query put in: what
`newRequest` prints. -/
def endpointWith (spath q : String) : URL :=
  { Scheme := "https", Host := "api.deversifi.com", Path := spath, RawQuery := q }

/-! # Properties -/

/-! ## Basic facts -/

/-- C6: `SocketEndPointHub false` is the public websocket URL and
`SocketEndPointHub true` is the empty string. -/
theorem socketEndPointHub_values :
    SocketEndPointHub false = "wss://api.deversifi.com/market-data/ws" ∧
      SocketEndPointHub true = "" := by
  constructor <;> rfl

/-! ## Malformed private keys -/

theorem utf8Char_ascii (c : Char) (h : c.toNat < 128) : utf8Char c = [c.toNat] := by
  simp [utf8Char, h]

theorem utf8Char_high (c : Char) (h : 128 ≤ c.toNat) : ∀ b ∈ utf8Char c, 128 ≤ b := by
  intro b hb
  unfold utf8Char at hb
  simp only at hb
  split_ifs at hb <;> simp at hb <;> omega

theorem fromHexChar_high (b : Nat) (h : 128 ≤ b) : fromHexChar b = none := by
  unfold fromHexChar
  have e0 : '0'.toNat = 48 := rfl
  have e9 : '9'.toNat = 57 := rfl
  have ea : 'a'.toNat = 97 := rfl
  have ef : 'f'.toNat = 102 := rfl
  have eA : 'A'.toNat = 65 := rfl
  have eF : 'F'.toNat = 70 := rfl
  rw [e0, e9, ea, ef, eA, eF]
  split_ifs <;> first | rfl | omega

theorem hexDecode_ok : ∀ (bs out : List Nat), hexDecode bs = Except.ok out →
    (∀ b ∈ bs, fromHexChar b ≠ none) ∧ bs.length = 2 * out.length
  | [], out, h => by
    simp [hexDecode] at h
    subst h
    simp
  | [p], out, h => by
    simp only [hexDecode] at h
    split at h <;> simp at h
  | p :: q :: rest, out, h => by
    simp only [hexDecode] at h
    split at h
    · simp at h
    · simp at h
    · rename_i a b ha hb
      split at h
      · simp at h
      · rename_i out' hrest
        have ih := hexDecode_ok rest out' hrest
        simp at h
        subst h
        refine ⟨?_, ?_⟩
        · intro x hx
          simp at hx
          rcases hx with rfl | rfl | hx
          · simp [ha]
          · simp [hb]
          · exact ih.1 x hx
        · simp [ih.2]; omega

theorem bytes_hex_chars : ∀ (cs : List Char),
    (∀ b ∈ cs.flatMap utf8Char, fromHexChar b ≠ none) →
      (∀ c ∈ cs, isHexDigit c = true) ∧ (cs.flatMap utf8Char).length = cs.length
  | [], _ => by simp
  | c :: cs, h => by
    have hc : c.toNat < 128 := by
      by_contra hge
      have hge' : 128 ≤ c.toNat := by omega
      have hne : utf8Char c ≠ [] := by
        unfold utf8Char
        simp only
        split_ifs <;> simp
      obtain ⟨b, hb⟩ := List.exists_mem_of_ne_nil _ hne
      have := h b (by simp [List.flatMap_cons, hb])
      exact this (fromHexChar_high b (utf8Char_high c hge' b hb))
    have hasc := utf8Char_ascii c hc
    have ih := bytes_hex_chars cs (fun b hb => h b (by simp [List.flatMap_cons]; right; simpa using hb))
    refine ⟨?_, ?_⟩
    · intro x hx
      simp at hx
      rcases hx with rfl | hx
      · have := h x.toNat (by simp [List.flatMap_cons, hasc])
        simp [isHexDigit, Option.isSome_iff_ne_none, this]
      · exact ih.1 x hx
    · simp [List.flatMap_cons, hasc, ih.2]

theorem hexToECDSA_ok_wellformed (cv : Curve) (k : String) (priv : PrivateKey)
    (h : HexToECDSA cv k = Except.ok priv) : ¬ malformedKey k := by
  unfold HexToECDSA at h
  split at h
  · simp at h
  · simp at h
  · rename_i b hb
    obtain ⟨hall, hlen⟩ := hexDecode_ok _ _ hb
    obtain ⟨hchars, hl⟩ := bytes_hex_chars k.data hall
    have h32 : 8 * b.length = 256 := by
      unfold ToECDSA at h
      by_contra hne
      simp [hne] at h
    unfold bytesOf at hlen
    rintro (⟨c, hc, hfalse⟩ | hbad)
    · have := hchars c hc
      simp [hfalse] at this
    · apply hbad
      have : k.length = k.data.length := rfl
      omega

theorem hexToECDSA_malformed (cv : Curve) (k : String) (h : malformedKey k) :
    ∃ err, HexToECDSA cv k = Except.error err := by
  cases hk : HexToECDSA cv k with
  | error e => exact ⟨e, rfl⟩
  | ok priv => exact absurd h (hexToECDSA_ok_wellformed cv k priv hk)

theorem hexToECDSA_malformed_curve (cv cv' : Curve) (k : String) (h : malformedKey k) :
    HexToECDSA cv k = HexToECDSA cv' k := by
  unfold HexToECDSA
  split
  · rfl
  · rfl
  · rename_i b hb
    obtain ⟨hall, hlen⟩ := hexDecode_ok _ _ hb
    obtain ⟨hchars, hl⟩ := bytes_hex_chars k.data hall
    have hne : 8 * b.length ≠ 256 := by
      intro h32
      unfold bytesOf at hlen
      rcases h with ⟨c, hc, hfalse⟩ | hbad
      · have := hchars c hc
        simp [hfalse] at this
      · apply hbad
        have : k.length = k.data.length := rfl
        omega
    simp [ToECDSA, hne]

/-! ## Big-endian bytes and hexadecimal digits -/

theorem natBytesAux_eq : ∀ (fuel n : Nat) (acc : List Nat), n ≤ fuel →
    natBytesAux fuel n acc = (Nat.digits 256 n).reverse ++ acc
  | 0, n, acc, h => by
    have : n = 0 := by omega
    subst this
    simp [natBytesAux]
  | fuel + 1, n, acc, h => by
    unfold natBytesAux
    by_cases hn : n = 0
    · subst hn
      simp
    · have hpos : 0 < n := Nat.pos_of_ne_zero hn
      have hdiv : n / 256 ≤ fuel := by omega
      rw [if_neg hn, natBytesAux_eq fuel (n / 256) _ hdiv,
        Nat.digits_def' (by norm_num : 1 < 256) hpos]
      simp

theorem natBytes_eq_digits (n : Nat) : natBytes n = (Nat.digits 256 n).reverse := by
  unfold natBytes
  rw [natBytesAux_eq n n [] (Nat.le_refl n)]
  simp

theorem natBytes_lt (n b : Nat) (hb : b ∈ natBytes n) : b < 256 := by
  rw [natBytes_eq_digits] at hb
  exact Nat.digits_lt_base (by norm_num) (List.mem_reverse.mp hb)

theorem natBytes_head_ne_zero (n : Nat) : (natBytes n).head? ≠ some 0 := by
  rw [natBytes_eq_digits]
  by_cases hn : n = 0
  · subst hn
    simp
  · have hne : Nat.digits 256 n ≠ [] := by
      simpa [Nat.digits_eq_nil_iff_eq_zero] using hn
    have hlast := Nat.getLast_digit_ne_zero 256 hn
    rw [List.head?_reverse, List.getLast?_eq_getLast _ hne]
    intro h
    exact hlast (Option.some.inj h)

theorem bigSetBytes_reverse (l : List Nat) : bigSetBytes l.reverse = Nat.ofDigits 256 l := by
  unfold bigSetBytes
  induction l with
  | nil => simp
  | cons d l ih =>
    simp only [List.reverse_cons, List.foldl_append, List.foldl_cons, List.foldl_nil, ih,
      Nat.ofDigits_cons]
    ring

theorem bigSetBytes_natBytes (n : Nat) : bigSetBytes (natBytes n) = n := by
  rw [natBytes_eq_digits, bigSetBytes_reverse, Nat.ofDigits_digits]

theorem natBytes_length_le_iff (n k : Nat) : (natBytes n).length ≤ k ↔ n < 256 ^ k := by
  rw [natBytes_eq_digits, List.length_reverse]
  constructor
  · intro h
    calc n < 256 ^ (Nat.digits 256 n).length := Nat.lt_base_pow_length_digits (by norm_num)
      _ ≤ 256 ^ k := Nat.pow_le_pow_right (by norm_num) h
  · intro h
    by_cases hn : n = 0
    · subst hn
      simp
    · have h1 := Nat.base_pow_length_digits_le 256 n (by norm_num) hn
      have h2 : 256 ^ (Nat.digits 256 n).length < 256 ^ (k + 1) := by
        calc 256 ^ (Nat.digits 256 n).length ≤ 256 * n := h1
          _ < 256 * 256 ^ k := by omega
          _ = 256 ^ (k + 1) := by ring
      have := (Nat.pow_lt_pow_iff_right (by norm_num : 1 < 256)).mp h2
      omega

theorem hexEncode_length (b : List Nat) : (hexEncode b).length = 2 * b.length := by
  unfold hexEncode
  show (b.flatMap hexByte).length = 2 * b.length
  induction b with
  | nil => rfl
  | cons x xs ih =>
    simp only [List.flatMap_cons, List.length_append, List.length_cons, ih, hexByte]
    simp
    omega

theorem lowerhex_getD_mem (d : Nat) : lowerhex.getD d '0' ∈ lowerhex := by
  by_cases h : d < 16
  · interval_cases d <;> decide
  · have hlen : lowerhex.length ≤ d := by
      have : lowerhex.length = 16 := rfl
      omega
    rw [List.getD_eq_default _ _ hlen]
    decide

theorem hexEncode_lower (b : List Nat) : ∀ c ∈ (hexEncode b).data, c ∈ lowerhex := by
  unfold hexEncode
  intro c hc
  simp only [List.mem_flatMap] at hc
  obtain ⟨x, _, hx⟩ := hc
  simp only [hexByte, List.mem_cons, List.mem_singleton, List.not_mem_nil, or_false] at hx
  rcases hx with rfl | rfl <;> exact lowerhex_getD_mem _

theorem signatureString_length (r s : Int) :
    (signatureString r s).length = 12 + 2 * ((bigBytes r).length + (bigBytes s).length) := by
  unfold signatureString
  simp only [String.length_append, hexEncode_length, List.length_append]
  rfl

/-! ## The dispatcher -/

/-- C5: for a response whose status code is not 200, `sendRequest` returns a
nil response and the error "faild to get data. status: " followed by the status
text; a response is returned only with status code 200 and a nil error; an error
of the transport is returned unchanged. -/
theorem sendRequest_status (c : Client) (method spath : String) (body : List Nat)
    (params : Option (List (String × String))) :
    (∀ req res, c.newRequest method spath body params = Except.ok req →
        c.HTTPC.Do req = Except.ok res → res.StatusCode ≠ 200 →
        c.sendRequest method spath body params =
          (none, some ("faild to get data. status: " ++ res.Status))) ∧
    (∀ res, (c.sendRequest method spath body params).1 = some res →
        res.StatusCode = 200 ∧ (c.sendRequest method spath body params).2 = none ∧
          ∃ req, c.newRequest method spath body params = Except.ok req ∧
            c.HTTPC.Do req = Except.ok res) ∧
    (∀ req err, c.newRequest method spath body params = Except.ok req →
        c.HTTPC.Do req = Except.error err →
        c.sendRequest method spath body params = (none, some err)) := by
  refine ⟨?_, ?_, ?_⟩
  · intro req res hreq hdo hne
    simp [Client.sendRequest, hreq, hdo, hne]
  · intro res h
    unfold Client.sendRequest at h ⊢
    cases hreq : c.newRequest method spath body params with
    | error e => simp [hreq] at h
    | ok req =>
      cases hdo : c.HTTPC.Do req with
      | error e => simp [hreq, hdo] at h
      | ok res' =>
        by_cases hc : res'.StatusCode = 200
        · simp [hreq, hdo, hc] at h
          subst h
          simp [hdo, hc]
        · simp [hreq, hdo, hc] at h
  · intro req err hreq hdo
    simp [Client.sendRequest, hreq, hdo]

/-- Witness of C5: the sample client, whose transport answers 404, gets the
status error and no response. -/
theorem sendRequest_status_witness :
    (sampleClient sampleKey).sendRequest "GET" "/v1/pub/tokens" [] none =
      (none, some "faild to get data. status: 404 Not Found") :=
  (sendRequest_status (sampleClient sampleKey) "GET" "/v1/pub/tokens" [] none).1
    _ { Status := "404 Not Found", StatusCode := 404, Body := [] } rfl rfl (by decide)

/-! ## The request does not depend on the secret -/

theorem headers_fresh (c : Client) (method url : String) (body : List Nat) :
    (c.Headers { Method := method, URL := url, Header := [], Body := body }).Header =
        [("Accept", ["application/json"]),
          ("Content-Type", ["application/json; charset=UTF-8"])] ∧
      (c.Headers { Method := method, URL := url, Header := [], Body := body }).Body = body := by
  refine ⟨?_, rfl⟩
  show Header.Add (Header.Add [] "Accept" "application/json") "Content-Type"
    "application/json; charset=UTF-8" = _
  decide

/-- C8: the request that `newRequest` builds is the same for two clients that
differ only in `privateKey` and `subaccount`; whenever a request is built, its
headers are the two fixed JSON headers and its body is the body passed in, so
neither field of the client reaches the URL, the headers or the body. -/
theorem newRequest_secret_independent (p : Client) (privateKey subaccount : String)
    (method spath : String) (body : List Nat) (params : Option (List (String × String))) :
    Client.newRequest { p with privateKey := privateKey, subaccount := subaccount }
        method spath body params =
      p.newRequest method spath body params ∧
    ∀ req, p.newRequest method spath body params = Except.ok req →
      req.Header = [("Accept", ["application/json"]),
        ("Content-Type", ["application/json; charset=UTF-8"])] ∧
      req.Body = body := by
  refine ⟨rfl, ?_⟩
  intro req h
  unfold Client.newRequest NewRequest at h
  simp only at h
  split at h
  · exact absurd h (by simp)
  · rename_i r hr
    simp only [Except.ok.injEq] at h
    split_ifs at hr
    all_goals
      simp only [Except.ok.injEq] at hr
      rw [← h, ← hr]
      exact headers_fresh p _ _ _

/-- Witness of C8: the request of the sample client carries the two headers and
the given body. -/
theorem newRequest_secret_independent_witness :
    ({ Method := "GET", URL := "https://api.deversifi.com/v1/x",
        Header := [("Accept", ["application/json"]),
          ("Content-Type", ["application/json; charset=UTF-8"])],
        Body := [1, 2] } : Request).Header =
      [("Accept", ["application/json"]),
        ("Content-Type", ["application/json; charset=UTF-8"])] ∧
    ({ Method := "GET", URL := "https://api.deversifi.com/v1/x",
        Header := [("Accept", ["application/json"]),
          ("Content-Type", ["application/json; charset=UTF-8"])],
        Body := [1, 2] } : Request).Body = [1, 2] :=
  (newRequest_secret_independent (sampleClient sampleKey) "other" "sub2" "GET" "/v1/x" [1, 2]
    none).2 _ rfl

/-! ## The signer -/

/-- C4: with a malformed private key (a character that is not a hex digit, or
a length other than 64) `sign` and `signAndPublicKey` return empty strings and
one non-nil error, whatever the message, the entropy and the curve primitives:
the error is fixed before any of them is called. -/
theorem sign_malformed_key (p : Client) (h : malformedKey p.privateKey) :
    ∃ err : Error, ∀ (cv : Curve) (rand : List Nat) (message : String),
      p.sign cv rand message = ("", some err) ∧
        p.signAndPublicKey cv rand message = ("", "", some err) := by
  obtain ⟨err, herr⟩ := hexToECDSA_malformed (sampleCurve true) p.privateKey h
  refine ⟨err, fun cv rand message => ?_⟩
  have hcv : HexToECDSA cv p.privateKey = Except.error err := by
    rw [hexToECDSA_malformed_curve cv (sampleCurve true) p.privateKey h, herr]
  simp [Client.sign, Client.signAndPublicKey, hcv]

/-- Witness of C4: a key with a letter that is no hex digit. -/
theorem sign_malformed_key_witness :
    malformedKey (sampleClient "0g").privateKey ∧
      ∃ err : Error, ∀ (cv : Curve) (rand : List Nat) (message : String),
        (sampleClient "0g").sign cv rand message = ("", some err) ∧
          (sampleClient "0g").signAndPublicKey cv rand message = ("", "", some err) :=
  ⟨by decide, sign_malformed_key (sampleClient "0g") (by decide)⟩

/-- C3: when the verification of the fresh pair `(r, s)` against the derived
public key fails, `sign` and `signAndPublicKey` return the error "didn't pass
verifystatus" and empty strings; a non-empty signature comes only with a nil
error and a verification that passed. -/
theorem sign_verify_failure (cv : Curve) (rand : List Nat) (p : Client) (message : String) :
    (∀ priv r s, HexToECDSA cv p.privateKey = Except.ok priv →
        cv.Sign rand priv (String2Bytes message) = Except.ok (r, s) →
        cv.Verify priv.PublicKey (String2Bytes message) r s = false →
        p.sign cv rand message = ("", some "didn't pass verifystatus") ∧
          p.signAndPublicKey cv rand message = ("", "", some "didn't pass verifystatus")) ∧
    ((p.sign cv rand message).1 ≠ "" →
        (p.sign cv rand message).2 = none ∧
          ∃ priv r s, HexToECDSA cv p.privateKey = Except.ok priv ∧
            cv.Sign rand priv (String2Bytes message) = Except.ok (r, s) ∧
            cv.Verify priv.PublicKey (String2Bytes message) r s = true) ∧
    ((p.signAndPublicKey cv rand message).1 ≠ "" →
        (p.signAndPublicKey cv rand message).2.2 = none ∧
          ∃ priv r s, HexToECDSA cv p.privateKey = Except.ok priv ∧
            cv.Sign rand priv (String2Bytes message) = Except.ok (r, s) ∧
            cv.Verify priv.PublicKey (String2Bytes message) r s = true) := by
  refine ⟨?_, ?_, ?_⟩
  · intro priv r s hkey hsign hver
    simp [Client.sign, Client.signAndPublicKey, hkey, hsign, hver, errVerify]
  · intro h
    unfold Client.sign at h ⊢
    cases hkey : HexToECDSA cv p.privateKey with
    | error e => simp [hkey] at h
    | ok priv =>
      cases hsign : cv.Sign rand priv (String2Bytes message) with
      | error e => simp [hkey, hsign] at h
      | ok rs =>
        obtain ⟨r, s⟩ := rs
        cases hver : cv.Verify priv.PublicKey (String2Bytes message) r s with
        | false => simp [hkey, hsign, hver] at h
        | true =>
          simp [hsign, hver]
          exact ⟨r, s, ⟨rfl, rfl⟩, hver⟩
  · intro h
    unfold Client.signAndPublicKey at h ⊢
    cases hkey : HexToECDSA cv p.privateKey with
    | error e => simp [hkey] at h
    | ok priv =>
      cases hsign : cv.Sign rand priv (String2Bytes message) with
      | error e => simp [hkey, hsign] at h
      | ok rs =>
        obtain ⟨r, s⟩ := rs
        cases hver : cv.Verify priv.PublicKey (String2Bytes message) r s with
        | false => simp [hkey, hsign, hver] at h
        | true =>
          simp [hsign, hver]
          exact ⟨r, s, ⟨rfl, rfl⟩, hver⟩

/-- Witness of C3: the sample curve with a failing verification. -/
theorem sign_verify_failure_witness :
    (sampleClient sampleKey).sign (sampleCurve false) [] "msg" =
        ("", some "didn't pass verifystatus") ∧
      (sampleClient sampleKey).signAndPublicKey (sampleCurve false) [] "msg" =
        ("", "", some "didn't pass verifystatus") :=
  (sign_verify_failure (sampleCurve false) [] (sampleClient sampleKey) "msg").1
    { PublicKey := { X := 0x0102, Y := 3 }, D := 1 } 1 0x0203 rfl rfl rfl

theorem bigBytes_minimal (x : Int) :
    bigSetBytes (bigBytes x) = x.natAbs ∧ (bigBytes x).head? ≠ some 0 ∧
      (∀ b ∈ bigBytes x, b < 256) ∧ ∀ k, (bigBytes x).length ≤ k ↔ x.natAbs < 256 ^ k :=
  ⟨bigSetBytes_natBytes _, natBytes_head_ne_zero _, natBytes_lt _, natBytes_length_le_iff _⟩

theorem sign_ok_inv (cv : Curve) (rand : List Nat) (p : Client) (message : String)
    (h : (p.sign cv rand message).2 = none) :
    ∃ priv r s, HexToECDSA cv p.privateKey = Except.ok priv ∧
      cv.Sign rand priv (String2Bytes message) = Except.ok (r, s) ∧
      cv.Verify priv.PublicKey (String2Bytes message) r s = true ∧
      p.sign cv rand message = (signatureString r s, none) := by
  unfold Client.sign at h ⊢
  cases hkey : HexToECDSA cv p.privateKey with
  | error e => simp [hkey] at h
  | ok priv =>
    cases hsign : cv.Sign rand priv (String2Bytes message) with
    | error e => simp [hkey, hsign] at h
    | ok rs =>
      obtain ⟨r, s⟩ := rs
      cases hver : cv.Verify priv.PublicKey (String2Bytes message) r s with
      | false => simp [hkey, hsign, hver] at h
      | true =>
        refine ⟨priv, r, s, rfl, hsign, hver, ?_⟩
        simp [hsign, hver]

theorem signAndPublicKey_ok_inv (cv : Curve) (rand : List Nat) (p : Client) (message : String)
    (h : (p.signAndPublicKey cv rand message).2.2 = none) :
    ∃ priv r s, HexToECDSA cv p.privateKey = Except.ok priv ∧
      cv.Sign rand priv (String2Bytes message) = Except.ok (r, s) ∧
      cv.Verify priv.PublicKey (String2Bytes message) r s = true ∧
      p.signAndPublicKey cv rand message =
        (signatureString r s,
          hexEncode (bigBytes priv.PublicKey.X ++ bigBytes priv.PublicKey.Y), none) := by
  unfold Client.signAndPublicKey at h ⊢
  cases hkey : HexToECDSA cv p.privateKey with
  | error e => simp [hkey] at h
  | ok priv =>
    cases hsign : cv.Sign rand priv (String2Bytes message) with
    | error e => simp [hkey, hsign] at h
    | ok rs =>
      obtain ⟨r, s⟩ := rs
      cases hver : cv.Verify priv.PublicKey (String2Bytes message) r s with
      | false => simp [hkey, hsign, hver] at h
      | true =>
        refine ⟨priv, r, s, rfl, hsign, hver, ?_⟩
        simp [hsign, hver]

theorem hexToECDSA_ok_inv (cv : Curve) (k : String) (priv : PrivateKey)
    (h : HexToECDSA cv k = Except.ok priv) :
    ∃ d, hexDecodeString k = Except.ok d ∧
      cv.ScalarBaseMult d = some (priv.PublicKey.X, priv.PublicKey.Y) ∧
      priv.D = bigSetBytes d := by
  unfold HexToECDSA at h
  split at h
  · simp at h
  · simp at h
  · rename_i b hb
    refine ⟨b, hb, ?_⟩
    unfold ToECDSA at h
    simp only at h
    split_ifs at h
    cases hm : cv.ScalarBaseMult b with
    | none => simp [hm] at h
    | some xy =>
      obtain ⟨x, y⟩ := xy
      simp only [hm, Except.ok.injEq] at h
      subst h
      simp

/-- C2: when `sign` succeeds with components `(r, s)`, the string it returns is
the label "Signature : " followed by the lowercase hex digits of the minimal
big-endian bytes of `r` and then of `s`, without padding: its length is
`12 + 2 * (byteLen r + byteLen s)`, and it is at most `12 + 2 * (kr + ks)` as
soon as `r` fits in `kr` bytes and `s` in `ks` bytes. -/
theorem sign_success_format (cv : Curve) (rand : List Nat) (p : Client) (message : String)
    (h : (p.sign cv rand message).2 = none) :
    ∃ priv r s, HexToECDSA cv p.privateKey = Except.ok priv ∧
      cv.Sign rand priv (String2Bytes message) = Except.ok (r, s) ∧
      (p.sign cv rand message).1 = "Signature : " ++ hexEncode (bigBytes r ++ bigBytes s) ∧
      (∀ c ∈ (hexEncode (bigBytes r ++ bigBytes s)).data, c ∈ lowerhex) ∧
      (∀ x ∈ [r, s], bigSetBytes (bigBytes x) = x.natAbs ∧ (bigBytes x).head? ≠ some 0 ∧
        (∀ b ∈ bigBytes x, b < 256) ∧ ∀ k, (bigBytes x).length ≤ k ↔ x.natAbs < 256 ^ k) ∧
      (p.sign cv rand message).1.length = 12 + 2 * ((bigBytes r).length + (bigBytes s).length) ∧
      ∀ kr ks, r.natAbs < 256 ^ kr → s.natAbs < 256 ^ ks →
        (p.sign cv rand message).1.length ≤ 12 + 2 * (kr + ks) := by
  obtain ⟨priv, r, s, hkey, hsign, _, hres⟩ := sign_ok_inv cv rand p message h
  refine ⟨priv, r, s, hkey, hsign, ?_, hexEncode_lower _, ?_, ?_, ?_⟩
  · rw [hres]
    rfl
  · intro x _
    exact bigBytes_minimal x
  · rw [hres]
    exact signatureString_length r s
  · intro kr ks hr hs
    rw [hres]
    have h1 := (natBytes_length_le_iff r.natAbs kr).mpr hr
    have h2 := (natBytes_length_le_iff s.natAbs ks).mpr hs
    have h3 := signatureString_length r s
    simp only [bigBytes] at h3 ⊢
    omega

/-- Witness of C2: the sample curve signs with `(1, 0x0203)`; the result has
three bytes, six digits. -/
theorem sign_success_format_witness :
    (sampleClient sampleKey).sign (sampleCurve true) [] "msg" = ("Signature : 010203", none) ∧
      ∃ priv r s, HexToECDSA (sampleCurve true) (sampleClient sampleKey).privateKey =
          Except.ok priv ∧
        (sampleCurve true).Sign [] priv (String2Bytes "msg") = Except.ok (r, s) ∧
        ((sampleClient sampleKey).sign (sampleCurve true) [] "msg").1 =
          "Signature : " ++ hexEncode (bigBytes r ++ bigBytes s) ∧
        (∀ c ∈ (hexEncode (bigBytes r ++ bigBytes s)).data, c ∈ lowerhex) ∧
        (∀ x ∈ [r, s], bigSetBytes (bigBytes x) = x.natAbs ∧ (bigBytes x).head? ≠ some 0 ∧
          (∀ b ∈ bigBytes x, b < 256) ∧ ∀ k, (bigBytes x).length ≤ k ↔ x.natAbs < 256 ^ k) ∧
        ((sampleClient sampleKey).sign (sampleCurve true) [] "msg").1.length =
          12 + 2 * ((bigBytes r).length + (bigBytes s).length) ∧
        ∀ kr ks, r.natAbs < 256 ^ kr → s.natAbs < 256 ^ ks →
          ((sampleClient sampleKey).sign (sampleCurve true) [] "msg").1.length ≤
            12 + 2 * (kr + ks) :=
  ⟨by decide, sign_success_format (sampleCurve true) [] (sampleClient sampleKey) "msg" rfl⟩

/-! ## What the decoded key bytes are -/

set_option maxRecDepth 100000 in
theorem fromHexChar_value_lt : ∀ p < 128, (fromHexChar p).getD 0 < 16 := by
  decide

set_option maxRecDepth 100000 in
theorem fromHexChar_lower : ∀ p < 128, fromHexChar p ≠ none →
    lowerhex.getD ((fromHexChar p).getD 0) '0' = (Char.ofNat p).toLower := by
  decide

theorem fromHexChar_some_lower (p a : Nat) (h : fromHexChar p = some a) :
    a < 16 ∧ lowerhex.getD a '0' = (Char.ofNat p).toLower := by
  have hp : p < 128 := by
    by_contra hge
    rw [fromHexChar_high p (by omega)] at h
    exact absurd h (by simp)
  have h1 := fromHexChar_value_lt p hp
  have h2 := fromHexChar_lower p hp (by rw [h]; simp)
  rw [h] at h1 h2
  exact ⟨h1, h2⟩

theorem hexDecode_roundtrip : ∀ (bs out : List Nat), hexDecode bs = Except.ok out →
    (∀ b ∈ out, b < 256) ∧
      out.flatMap hexByte = bs.map (fun b => (Char.ofNat b).toLower)
  | [], out, h => by
    simp [hexDecode] at h
    subst h
    simp
  | [p], out, h => by
    simp only [hexDecode] at h
    split at h <;> simp at h
  | p :: q :: rest, out, h => by
    simp only [hexDecode] at h
    split at h
    · simp at h
    · simp at h
    · rename_i a b ha hb
      split at h
      · simp at h
      · rename_i out' hrest
        have ih := hexDecode_roundtrip rest out' hrest
        obtain ⟨ha16, hal⟩ := fromHexChar_some_lower p a ha
        obtain ⟨hb16, hbl⟩ := fromHexChar_some_lower q b hb
        simp only [Except.ok.injEq] at h
        subst h
        have e1 : (a * 16 + b) / 16 = a := by omega
        have e2 : (a * 16 + b) % 16 = b := by omega
        refine ⟨?_, ?_⟩
        · intro x hx
          rcases List.mem_cons.mp hx with rfl | hx
          · omega
          · exact ih.1 x hx
        · simp only [List.flatMap_cons, hexByte, e1, e2, hal, hbl, ih.2, List.map_cons,
            List.cons_append, List.nil_append]

theorem bytes_hex_ascii : ∀ (cs : List Char),
    (∀ b ∈ cs.flatMap utf8Char, fromHexChar b ≠ none) →
      cs.flatMap utf8Char = cs.map Char.toNat
  | [], _ => rfl
  | c :: cs, h => by
    have hc : c.toNat < 128 := by
      by_contra hge
      have hne : utf8Char c ≠ [] := by
        unfold utf8Char
        simp only
        split_ifs <;> simp
      obtain ⟨b, hb⟩ := List.exists_mem_of_ne_nil _ hne
      exact h b (by simp [List.flatMap_cons, hb])
        (fromHexChar_high b (utf8Char_high c (by omega) b hb))
    have ih := bytes_hex_ascii cs
      (fun b hb => h b (by simp only [List.flatMap_cons, List.mem_append]; exact Or.inr hb))
    simp only [List.flatMap_cons, utf8Char_ascii c hc, ih, List.map_cons, List.singleton_append]

theorem hexDecodeString_roundtrip (k : String) (d : List Nat)
    (h : hexDecodeString k = Except.ok d) :
    (∀ b ∈ d, b < 256) ∧ hexEncode d = ⟨k.data.map Char.toLower⟩ := by
  unfold hexDecodeString at h
  obtain ⟨hall, _⟩ := hexDecode_ok _ _ h
  obtain ⟨hlt, hrt⟩ := hexDecode_roundtrip _ _ h
  refine ⟨hlt, ?_⟩
  unfold hexEncode
  apply String.ext
  show d.flatMap hexByte = k.data.map Char.toLower
  rw [hrt]
  unfold bytesOf at hall ⊢
  rw [bytes_hex_ascii k.data hall, List.map_map]
  apply List.map_congr_left
  intro c _
  simp only [Function.comp_apply, Char.ofNat_toNat]

theorem hexToECDSA_ok_range (cv : Curve) (k : String) (priv : PrivateKey) (d : List Nat)
    (h : HexToECDSA cv k = Except.ok priv) (hd : hexDecodeString k = Except.ok d) :
    d.length = 32 ∧ 0 < bigSetBytes d ∧ bigSetBytes d < secp256k1N := by
  unfold HexToECDSA at h
  rw [hd] at h
  simp only at h
  unfold ToECDSA at h
  simp only at h
  split_ifs at h with h1 h2 h3
  refine ⟨by omega, by omega, by omega⟩

/-- C7: when `signAndPublicKey` succeeds, its second result is the lowercase
hex digits, without label or padding, of the minimal big-endian bytes of `X`
followed by those of `Y`, where `(X, Y)` is the point that the curve derives
from the private key of the client: the scalar passed to the curve is the 32
bytes `d` whose hex digits are the key string (in lower case), a number between
0 and the group order.  Its first result is the string `sign` returns for the
same entropy, the label followed by the hex digits of the bytes of `r` and
`s`. -/
theorem signAndPublicKey_success (cv : Curve) (rand : List Nat) (p : Client) (message : String)
    (h : (p.signAndPublicKey cv rand message).2.2 = none) :
    ∃ d X Y r s, hexDecodeString p.privateKey = Except.ok d ∧
      d.length = 32 ∧ (∀ b ∈ d, b < 256) ∧
      hexEncode d = ⟨p.privateKey.data.map Char.toLower⟩ ∧
      0 < bigSetBytes d ∧ bigSetBytes d < secp256k1N ∧
      cv.ScalarBaseMult d = some (X, Y) ∧
      (p.signAndPublicKey cv rand message).2.1 = hexEncode (bigBytes X ++ bigBytes Y) ∧
      (∀ c ∈ (hexEncode (bigBytes X ++ bigBytes Y)).data, c ∈ lowerhex) ∧
      (hexEncode (bigBytes X ++ bigBytes Y)).length =
        2 * ((bigBytes X).length + (bigBytes Y).length) ∧
      (∀ x ∈ [X, Y], bigSetBytes (bigBytes x) = x.natAbs ∧ (bigBytes x).head? ≠ some 0 ∧
        (∀ b ∈ bigBytes x, b < 256) ∧ ∀ k, (bigBytes x).length ≤ k ↔ x.natAbs < 256 ^ k) ∧
      (p.signAndPublicKey cv rand message).1 =
        "Signature : " ++ hexEncode (bigBytes r ++ bigBytes s) ∧
      p.sign cv rand message = ((p.signAndPublicKey cv rand message).1, none) := by
  obtain ⟨priv, r, s, hkey, hsign, hver, hres⟩ := signAndPublicKey_ok_inv cv rand p message h
  obtain ⟨d, hd, hmul, _⟩ := hexToECDSA_ok_inv cv p.privateKey priv hkey
  obtain ⟨hlt, hrt⟩ := hexDecodeString_roundtrip p.privateKey d hd
  obtain ⟨hlen, hpos, hltN⟩ := hexToECDSA_ok_range cv p.privateKey priv d hkey hd
  refine ⟨d, priv.PublicKey.X, priv.PublicKey.Y, r, s, hd, hlen, hlt, hrt, hpos, hltN, hmul, ?_,
    hexEncode_lower _, ?_, ?_, ?_, ?_⟩
  · rw [hres]
  · rw [hexEncode_length, List.length_append]
  · intro x _
    exact bigBytes_minimal x
  · rw [hres]
    rfl
  · rw [hres]
    simp [Client.sign, hkey, hsign, hver]

/-- Witness of C7: with the key of the scalar `0x0a0b` the sample curve derives
the point `(0x0b0c, 3)`, and the public key string is `0b0c03`. -/
theorem signAndPublicKey_success_witness :
    (sampleClient sampleKeyMixed).signAndPublicKey (sampleCurve true) [] "msg" =
        ("Signature : 010203", "0b0c03", none) ∧
      ∃ d X Y r s, hexDecodeString (sampleClient sampleKeyMixed).privateKey = Except.ok d ∧
        d.length = 32 ∧ (∀ b ∈ d, b < 256) ∧
        hexEncode d = ⟨(sampleClient sampleKeyMixed).privateKey.data.map Char.toLower⟩ ∧
        0 < bigSetBytes d ∧ bigSetBytes d < secp256k1N ∧
        (sampleCurve true).ScalarBaseMult d = some (X, Y) ∧
        ((sampleClient sampleKeyMixed).signAndPublicKey (sampleCurve true) [] "msg").2.1 =
          hexEncode (bigBytes X ++ bigBytes Y) ∧
        (∀ c ∈ (hexEncode (bigBytes X ++ bigBytes Y)).data, c ∈ lowerhex) ∧
        (hexEncode (bigBytes X ++ bigBytes Y)).length =
          2 * ((bigBytes X).length + (bigBytes Y).length) ∧
        (∀ x ∈ [X, Y], bigSetBytes (bigBytes x) = x.natAbs ∧ (bigBytes x).head? ≠ some 0 ∧
          (∀ b ∈ bigBytes x, b < 256) ∧ ∀ k, (bigBytes x).length ≤ k ↔ x.natAbs < 256 ^ k) ∧
        ((sampleClient sampleKeyMixed).signAndPublicKey (sampleCurve true) [] "msg").1 =
          "Signature : " ++ hexEncode (bigBytes r ++ bigBytes s) ∧
        (sampleClient sampleKeyMixed).sign (sampleCurve true) [] "msg" =
          (((sampleClient sampleKeyMixed).signAndPublicKey (sampleCurve true) [] "msg").1,
            none) :=
  ⟨by decide,
    signAndPublicKey_success (sampleCurve true) [] (sampleClient sampleKeyMixed) "msg" rfl⟩

/-- C10: the signature encoding is not injective: the distinct positive pairs
`(1, 0x0203)` and `(0x0102, 3)` have the same bytes `01 02 03`, so both are
encoded as "Signature : 010203". -/
theorem signatureString_not_injective :
    ∃ r s r' s' : Int, 0 < r ∧ 0 < s ∧ 0 < r' ∧ 0 < s' ∧ (r, s) ≠ (r', s') ∧
      signatureString r s = signatureString r' s' ∧
      signatureString r s = "Signature : 010203" :=
  ⟨1, 0x0203, 0x0102, 3, by decide, by decide, by decide, by decide, by decide, by decide,
    by decide⟩

/-! ## UTF-8 bytes of a string -/

theorem char_toNat_lt (c : Char) : c.toNat < 0x110000 := by
  have h := c.valid
  unfold UInt32.isValidChar Nat.isValidChar at h
  show c.val.toNat < 0x110000
  omega

theorem char_toNat_inj {c c' : Char} (h : c.toNat = c'.toNat) : c = c' := by
  rw [← Char.ofNat_toNat c, ← Char.ofNat_toNat c', h]

theorem utf8Char_ne_nil (c : Char) : utf8Char c ≠ [] := by
  unfold utf8Char
  simp only
  split_ifs <;> simp

theorem utf8Char_lt (c : Char) : ∀ b ∈ utf8Char c, b < 256 := by
  intro b hb
  have hc := char_toNat_lt c
  unfold utf8Char at hb
  simp only at hb
  split_ifs at hb <;> simp at hb <;> omega

theorem utf8Char_append_inj (c c' : Char) (r r' : List Nat)
    (h : utf8Char c ++ r = utf8Char c' ++ r') : c = c' ∧ r = r' := by
  have hc := char_toNat_lt c
  have hc' := char_toNat_lt c'
  unfold utf8Char at h
  simp only at h
  split_ifs at h <;>
    simp only [List.cons_append, List.nil_append, List.cons.injEq] at h <;>
    first
      | (exfalso; omega)
      | (refine ⟨char_toNat_inj ?_, ?_⟩
         · omega
         · tauto)

theorem flatMap_code_inj {α β : Type} (f : α → List β) (P : α → Prop)
    (hne : ∀ a, P a → f a ≠ [])
    (hcode : ∀ a a' r r', P a → P a' → f a ++ r = f a' ++ r' → a = a' ∧ r = r') :
    ∀ (l l' : List α), (∀ a ∈ l, P a) → (∀ a ∈ l', P a) →
      l.flatMap f = l'.flatMap f → l = l'
  | [], [], _, _, _ => rfl
  | [], a :: l', _, h', h => by
    simp only [List.flatMap_nil, List.flatMap_cons] at h
    have := hne a (h' a (by simp))
    cases hfa : f a with
    | nil => exact absurd hfa this
    | cons x xs => simp [hfa] at h
  | a :: l, [], h1, _, h => by
    simp only [List.flatMap_nil, List.flatMap_cons] at h
    have := hne a (h1 a (by simp))
    cases hfa : f a with
    | nil => exact absurd hfa this
    | cons x xs => simp [hfa] at h
  | a :: l, a' :: l', h1, h1', h => by
    simp only [List.flatMap_cons] at h
    obtain ⟨ha, hr⟩ := hcode a a' _ _ (h1 a (by simp)) (h1' a' (by simp)) h
    have := flatMap_code_inj f P hne hcode l l' (fun x hx => h1 x (by simp [hx]))
      (fun x hx => h1' x (by simp [hx])) hr
    rw [ha, this]

theorem bytesOf_lt (s : String) : ∀ b ∈ bytesOf s, b < 256 := by
  intro b hb
  unfold bytesOf at hb
  obtain ⟨c, _, hc⟩ := List.mem_flatMap.mp hb
  exact utf8Char_lt c b hc

theorem bytesOf_inj {s t : String} (h : bytesOf s = bytesOf t) : s = t := by
  unfold bytesOf at h
  have := flatMap_code_inj utf8Char (fun _ => True) (fun a _ => utf8Char_ne_nil a)
    (fun a a' r r' _ _ hh => utf8Char_append_inj a a' r r' hh) s.data t.data
    (fun _ _ => trivial) (fun _ _ => trivial) h
  exact String.ext this

/-! ## Query escaping is injective and never writes an equals sign -/

theorem upperhex_inj : ∀ d < 16, ∀ e < 16,
    upperhex.getD d '0' = upperhex.getD e '0' → d = e := by
  decide

set_option maxRecDepth 100000 in
theorem escapeByte_query_shape : ∀ b < 256,
    (b = 32 ∧ escapeByte encoding.encodeQueryComponent b = ['+']) ∨
    (escapeByte encoding.encodeQueryComponent b =
      ['%', upperhex.getD (b / 16) '0', upperhex.getD (b % 16) '0']) ∨
    (escapeByte encoding.encodeQueryComponent b = [Char.ofNat b] ∧ Char.ofNat b ≠ '+' ∧
      Char.ofNat b ≠ '%' ∧ (Char.ofNat b).toNat = b) := by
  decide

set_option maxRecDepth 100000 in
theorem escapeByte_query_no_eq : ∀ b < 256,
    '=' ∉ escapeByte encoding.encodeQueryComponent b := by
  decide

theorem escapeByte_query_ne_nil (b : Nat) (hb : b < 256) :
    escapeByte encoding.encodeQueryComponent b ≠ [] := by
  rcases escapeByte_query_shape b hb with ⟨_, h⟩ | h | ⟨h, _⟩ <;> simp [h]

theorem escapeByte_query_append_inj (b b' : Nat) (r r' : List Char) (hb : b < 256)
    (hb' : b' < 256)
    (h : escapeByte encoding.encodeQueryComponent b ++ r =
      escapeByte encoding.encodeQueryComponent b' ++ r') : b = b' ∧ r = r' := by
  rcases escapeByte_query_shape b hb with ⟨e, h1⟩ | h1 | ⟨h1, p1, p2, p3⟩ <;>
    rcases escapeByte_query_shape b' hb' with ⟨e', h2⟩ | h2 | ⟨h2, q1, q2, q3⟩ <;>
    rw [h1, h2] at h <;>
    simp only [List.cons_append, List.nil_append, List.cons.injEq] at h
  · exact ⟨by omega, h.2⟩
  · exact absurd h.1 (by decide)
  · exact absurd h.1.symm q1
  · exact absurd h.1 (by decide)
  · obtain ⟨_, hhi, hlo, hr⟩ := h
    have e1 := upperhex_inj (b / 16) (by omega) (b' / 16) (by omega) hhi
    have e2 := upperhex_inj (b % 16) (by omega) (b' % 16) (by omega) hlo
    exact ⟨by omega, hr⟩
  · exact absurd h.1.symm q2
  · exact absurd h.1 p1
  · exact absurd h.1 p2
  · refine ⟨?_, h.2⟩
    rw [← p3, ← q3, h.1]

theorem queryEscape_inj {s t : String} (h : QueryEscape s = QueryEscape t) : s = t := by
  unfold QueryEscape escape at h
  have h' : (bytesOf s).flatMap (escapeByte encoding.encodeQueryComponent) =
      (bytesOf t).flatMap (escapeByte encoding.encodeQueryComponent) :=
    congrArg String.data h
  exact bytesOf_inj (flatMap_code_inj _ (fun b => b < 256) escapeByte_query_ne_nil
    (fun a a' r r' ha ha' hh => escapeByte_query_append_inj a a' r r' ha ha' hh)
    _ _ (bytesOf_lt s) (bytesOf_lt t) h')

theorem queryEscape_no_eq (s : String) : '=' ∉ (QueryEscape s).data := by
  unfold QueryEscape escape
  intro hmem
  obtain ⟨b, hb, hin⟩ := List.mem_flatMap.mp hmem
  exact escapeByte_query_no_eq b (bytesOf_lt s b hb) hin

/-! ## The query values built by the loop of `newRequest` -/

theorem values_set_fresh (v : Values) (k x : String) (h : k ∉ v.map Prod.fst) :
    Values.Set v k x = v ++ [(k, [x])] := by
  unfold Values.Set
  rw [if_neg h]

theorem values_fold_set : ∀ (m : List (String × String)) (acc : Values),
    (m.map Prod.fst).Nodup → (∀ kv ∈ m, kv.1 ∉ acc.map Prod.fst) →
      m.foldl (fun (q : Values) (kv : String × String) => Values.Set q kv.1 kv.2) acc =
        acc ++ m.map (fun kv => (kv.1, [kv.2]))
  | [], acc, _, _ => by simp
  | kv :: m, acc, hnd, hfresh => by
    rw [List.map_cons, List.nodup_cons] at hnd
    rw [List.foldl_cons, values_set_fresh acc kv.1 kv.2 (hfresh kv (by simp))]
    rw [values_fold_set m _ hnd.2]
    · simp
    · intro kv' hkv'
      simp only [List.map_append, List.map_cons, List.map_nil, List.mem_append,
        List.mem_singleton, not_or]
      refine ⟨hfresh kv' (by simp [hkv']), ?_⟩
      intro heq
      exact hnd.1 (heq ▸ List.mem_map_of_mem Prod.fst hkv')

theorem lookup_singletons (k : String) : ∀ (m : List (String × String)),
    (m.map (fun kv => (kv.1, [kv.2]))).lookup k = (m.lookup k).map (fun x => [x])
  | [] => rfl
  | kv :: m => by
    obtain ⟨a, b⟩ := kv
    simp only [List.map_cons, List.lookup_cons]
    cases hk : k == a with
    | true => rfl
    | false => exact lookup_singletons k m

theorem lookup_of_mem : ∀ (m : List (String × String)) (k x : String),
    (m.map Prod.fst).Nodup → (k, x) ∈ m → m.lookup k = some x
  | [], _, _, _, h => by simp at h
  | kv :: m, k, x, hnd, h => by
    rw [List.map_cons, List.nodup_cons] at hnd
    rw [List.lookup_cons]
    rcases List.mem_cons.mp h with heq | hmem
    · subst heq
      simp
    · have hne : (k == kv.1) = false := by
        rw [beq_eq_false_iff_ne]
        intro heq
        exact hnd.1 (heq ▸ List.mem_map_of_mem Prod.fst hmem)
      rw [hne]
      exact lookup_of_mem m k x hnd.2 hmem

theorem lookup_none_of_not_mem : ∀ (m : List (String × String)) (k : String),
    k ∉ m.map Prod.fst → m.lookup k = none
  | [], _, _ => rfl
  | kv :: m, k, h => by
    simp only [List.map_cons, List.mem_cons, not_or] at h
    rw [List.lookup_cons]
    have hne : (k == kv.1) = false := by
      rw [beq_eq_false_iff_ne]
      exact h.1
    rw [hne]
    exact lookup_none_of_not_mem m k h.2

theorem lookup_perm (m m' : List (String × String)) (hperm : m.Perm m')
    (hnd : (m.map Prod.fst).Nodup) (k : String) : m.lookup k = m'.lookup k := by
  have hnd' : (m'.map Prod.fst).Nodup := (hperm.map Prod.fst).nodup_iff.mp hnd
  by_cases hk : k ∈ m.map Prod.fst
  · obtain ⟨kv, hkv, rfl⟩ := List.mem_map.mp hk
    rw [lookup_of_mem m kv.1 kv.2 hnd hkv, lookup_of_mem m' kv.1 kv.2 hnd' (hperm.subset hkv)]
  · have hk' : k ∉ m'.map Prod.fst := fun h => hk ((hperm.map Prod.fst).symm.subset h)
    rw [lookup_none_of_not_mem m k hk, lookup_none_of_not_mem m' k hk']

/-! ## Sorting the keys -/

theorem goStringLE_total : IsTotal String goStringLE :=
  ⟨fun a b => le_total (bytesOf a) (bytesOf b)⟩

theorem goStringLE_trans : IsTrans String goStringLE :=
  ⟨fun _ _ _ hab hbc => le_trans hab hbc⟩

theorem goStringLE_antisymm : IsAntisymm String goStringLE :=
  ⟨fun _ _ hab hba => bytesOf_inj (le_antisymm hab hba)⟩

theorem sortStrings_perm (l : List String) : (sortStrings l).Perm l :=
  List.perm_insertionSort goStringLE l

theorem sortStrings_sorted (l : List String) : (sortStrings l).Sorted goStringLE :=
  @List.sorted_insertionSort _ goStringLE _ goStringLE_total goStringLE_trans l

theorem sortStrings_eq_of_perm (l l' : List String) (h : l.Perm l') :
    sortStrings l = sortStrings l' :=
  @List.eq_of_perm_of_sorted _ goStringLE goStringLE_antisymm _ _
    (((sortStrings_perm l).trans h).trans (sortStrings_perm l').symm)
    (sortStrings_sorted l) (sortStrings_sorted l')

theorem sortedParams_perm (m : List (String × String)) (hnd : (m.map Prod.fst).Nodup) :
    (sortedParams m).Perm m := by
  unfold sortedParams
  have h1 := (sortStrings_perm (m.map Prod.fst)).map (fun k => (k, (m.lookup k).getD ""))
  refine h1.trans ?_
  rw [List.map_map]
  have : List.map ((fun k => (k, (m.lookup k).getD "")) ∘ Prod.fst) m = List.map id m := by
    apply List.map_congr_left
    intro kv hkv
    simp [lookup_of_mem m kv.1 kv.2 hnd hkv]
  rw [this, List.map_id]

theorem sortedParams_keys (m : List (String × String)) :
    (sortedParams m).map Prod.fst = sortStrings (m.map Prod.fst) := by
  unfold sortedParams
  rw [List.map_map]
  exact List.map_id _

theorem sortedParams_eq_of_perm (m m' : List (String × String)) (hperm : m.Perm m')
    (hnd : (m.map Prod.fst).Nodup) : sortedParams m = sortedParams m' := by
  unfold sortedParams
  rw [sortStrings_eq_of_perm _ _ (hperm.map Prod.fst)]
  apply List.map_congr_left
  intro k _
  rw [lookup_perm m m' hperm hnd k]

/-! ## `Values.Encode` writes the sorted segments, joined by ampersands -/

theorem string_length_pos_iff (s : String) : s.length > 0 ↔ s ≠ "" := by
  constructor
  · intro h he
    subst he
    exact absurd h (by decide)
  · intro h
    by_contra hlen
    apply h
    apply String.ext
    have hl : s.data.length = 0 := by
      have : s.length = s.data.length := rfl
      omega
    exact List.length_eq_zero.mp hl

theorem string_append_ne_empty (s t : String) (ht : t ≠ "") : s ++ t ≠ "" := by
  rw [← string_length_pos_iff] at ht ⊢
  rw [String.length_append]
  omega

theorem string_append_left_ne_empty (s t : String) (hs : s ≠ "") : s ++ t ≠ "" := by
  rw [← string_length_pos_iff] at hs ⊢
  rw [String.length_append]
  omega

theorem querySegment_ne_empty (kv : String × String) : querySegment kv ≠ "" := by
  unfold querySegment
  rw [String.append_assoc]
  apply string_append_ne_empty
  rw [← string_length_pos_iff, String.length_append]
  have : ("=" : String).length = 1 := rfl
  omega

theorem amp_fold_go : ∀ (segs : List String) (acc : String), acc ≠ "" →
    segs.foldl (fun buf seg => (if buf.length > 0 then buf ++ "&" else buf) ++ seg) acc =
      String.intercalate.go acc "&" segs
  | [], acc, _ => rfl
  | a :: as, acc, hacc => by
    have hpos : acc.length > 0 := (string_length_pos_iff acc).mpr hacc
    rw [List.foldl_cons, if_pos hpos, String.intercalate.go]
    apply amp_fold_go as
    exact string_append_left_ne_empty _ _ (string_append_left_ne_empty _ _ hacc)

theorem amp_fold (segs : List String) (hne : ∀ s ∈ segs, s ≠ "") :
    segs.foldl (fun buf seg => (if buf.length > 0 then buf ++ "&" else buf) ++ seg) "" =
      "&".intercalate segs := by
  cases segs with
  | nil => rfl
  | cons a as =>
    have h0 : ¬ ("" : String).length > 0 := by decide
    rw [List.foldl_cons, if_neg h0, String.empty_append, String.intercalate]
    exact amp_fold_go as a (hne a (by simp))

theorem encode_outer_fold (m : List (String × String)) (hnd : (m.map Prod.fst).Nodup) :
    ∀ (ks : List String) (acc : String), (∀ k ∈ ks, k ∈ m.map Prod.fst) →
      ks.foldl (fun buf k =>
        (((m.map (fun kv => (kv.1, [kv.2]))).lookup k).getD []).foldl (fun buf x =>
          (if buf.length > 0 then buf ++ "&" else buf) ++ QueryEscape k ++ "=" ++
            QueryEscape x) buf) acc =
      (ks.map (fun k => querySegment (k, (m.lookup k).getD ""))).foldl
        (fun buf seg => (if buf.length > 0 then buf ++ "&" else buf) ++ seg) acc
  | [], _, _ => rfl
  | k :: ks, acc, hks => by
    obtain ⟨kv, hkv, hk⟩ := List.mem_map.mp (hks k (by simp))
    have hlook : m.lookup k = some kv.2 := by
      rw [← hk]
      exact lookup_of_mem m kv.1 kv.2 hnd hkv
    rw [List.foldl_cons, List.map_cons, List.foldl_cons, lookup_singletons, hlook]
    simp only [Option.map_some', Option.getD_some, List.foldl_cons, List.foldl_nil]
    rw [encode_outer_fold m hnd ks _ (fun k' hk' => hks k' (by simp [hk']))]
    congr 1
    unfold querySegment
    simp only [String.append_assoc]

theorem encode_eq_intercalate (m : List (String × String)) (hnd : (m.map Prod.fst).Nodup) :
    Values.Encode (m.map (fun kv => (kv.1, [kv.2]))) =
      "&".intercalate ((sortedParams m).map querySegment) := by
  unfold Values.Encode
  by_cases hm : m = []
  · subst hm
    rfl
  · have hlen : ¬ (m.map (fun kv : String × String => (kv.1, [kv.2]))).length = 0 := by
      rw [List.length_map]
      intro h
      exact hm (List.length_eq_zero.mp h)
    rw [if_neg hlen]
    have hkeys : (m.map (fun kv : String × String => (kv.1, [kv.2]))).map Prod.fst =
        m.map Prod.fst := by
      rw [List.map_map]
      rfl
    simp only [hkeys]
    rw [encode_outer_fold m hnd _ _ (fun k hk => (sortStrings_perm _).subset hk)]
    rw [amp_fold]
    · unfold sortedParams
      rw [List.map_map]
      rfl
    · intro s hs
      obtain ⟨k, _, rfl⟩ := List.mem_map.mp hs
      exact querySegment_ne_empty _

/-! ## Printing the URL of the endpoint -/

set_option maxRecDepth 100000 in
theorem escapeByte_path_shape : ∀ b < 256, shouldEscape b encoding.encodePath = false →
    b < 128 ∧ escapeByte encoding.encodePath b = [Char.ofNat b] := by
  decide

theorem escape_path_chars : ∀ (cs : List Char),
    (∀ b ∈ cs.flatMap utf8Char, shouldEscape b encoding.encodePath = false) →
      (cs.flatMap utf8Char).flatMap (escapeByte encoding.encodePath) = cs
  | [], _ => rfl
  | c :: cs, h => by
    have hc : c.toNat < 128 := by
      by_contra hge
      obtain ⟨b, hb⟩ := List.exists_mem_of_ne_nil _ (utf8Char_ne_nil c)
      have h1 := h b (by simp [List.flatMap_cons, hb])
      have h2 := (escapeByte_path_shape b (utf8Char_lt c b hb) h1).1
      have h3 := utf8Char_high c (by omega) b hb
      omega
    have hasc := utf8Char_ascii c hc
    have hesc := (escapeByte_path_shape c.toNat (by omega)
      (h c.toNat (by simp [List.flatMap_cons, hasc]))).2
    have ih := escape_path_chars cs
      (fun b hb => h b (by simp only [List.flatMap_cons, List.mem_append]; exact Or.inr hb))
    simp only [List.flatMap_cons, hasc, List.flatMap_nil, List.append_nil, List.singleton_append,
      hesc, Char.ofNat_toNat, ih, List.cons_append, List.nil_append]

theorem escape_validPath (spath : String) (h : validPath spath) :
    escape spath encoding.encodePath = spath := by
  unfold escape bytesOf
  apply String.ext
  exact escape_path_chars spath.data h.2

theorem validPath_ne_star (spath : String) (h : validPath spath) : spath ≠ "*" := by
  rintro rfl
  rcases h.1 with h1 | h1
  · exact absurd h1 (by decide)
  · exact absurd h1 (by decide)

theorem url_string_endpoint (spath q : String) (h : validPath spath) :
    URL.String (endpointWith spath q) =
      ENDPOINT ++ spath ++ (if q ≠ "" then "?" ++ q else "") := by
  have hpath : URL.EscapedPath (endpointWith spath q) = spath := by
    unfold URL.EscapedPath endpointWith
    rw [if_neg (validPath_ne_star spath h)]
    exact escape_validPath spath h
  have hhost : escape "api.deversifi.com" encoding.encodeHost = "api.deversifi.com" := by
    decide
  have hslash : ¬ (¬ spath = "" ∧ ¬ spath.data.head? = some '/' ∧ True) := by
    rintro ⟨h1, h2, _⟩
    rcases h.1 with e | e
    · exact h1 e
    · exact h2 e
  have hs : ("https" : String) ≠ "" := by decide
  have hh : ("api.deversifi.com" : String) ≠ "" := by decide
  have hbuf : ("https" : String) ++ ":" ++ "//" ++ "api.deversifi.com" = ENDPOINT := by decide
  have hlen : ¬ (ENDPOINT.length = 0 ∧
      ':' ∈ spath.data.takeWhile (fun c => decide ¬ c = '/')) := by
    rintro ⟨h0, _⟩
    exact absurd h0 (by decide)
  unfold URL.String
  simp only [hpath]
  unfold endpointWith
  simp only [hhost, hs, hh, ne_eq, not_false_eq_true, if_true, true_or,
    or_true, hbuf, if_neg hslash, if_neg hlen]
  split_ifs with hq
  · exact (String.append_empty _).symm
  · simp only [String.append_assoc]

/-! ## The URL that `newRequest` builds -/

theorem intercalate_go_ne_empty : ∀ (segs : List String) (acc : String), acc ≠ "" →
    String.intercalate.go acc "&" segs ≠ ""
  | [], _, h => h
  | a :: as, acc, h => by
    rw [String.intercalate.go]
    exact intercalate_go_ne_empty as _
      (string_append_left_ne_empty _ _ (string_append_left_ne_empty _ _ h))

theorem intercalate_segments_ne_empty (l : List (String × String)) (hl : l ≠ []) :
    "&".intercalate (l.map querySegment) ≠ "" := by
  cases l with
  | nil => exact absurd rfl hl
  | cons kv l =>
    rw [List.map_cons, String.intercalate]
    exact intercalate_go_ne_empty _ _ (querySegment_ne_empty kv)

theorem sortedParams_eq_nil_iff (m : List (String × String)) (hnd : (m.map Prod.fst).Nodup) :
    sortedParams m = [] ↔ m = [] := by
  constructor
  · intro h
    have := sortedParams_perm m hnd
    rw [h] at this
    exact List.Perm.nil_eq this |>.symm
  · rintro rfl
    rfl

theorem url_string_query (spath q : String) :
    URL.String (endpointWith spath q) =
      URL.String (endpointWith spath "") ++ (if q ≠ "" then "?" ++ q else "") := by
  unfold URL.String URL.EscapedPath endpointWith
  simp only [ne_eq, not_true_eq_false, if_false]
  by_cases hq : q = ""
  · rw [if_neg (not_not.mpr hq), if_neg (not_not.mpr hq), String.append_empty]
  · rw [if_pos hq, if_pos hq]
    simp only [String.append_assoc]

theorem newRequest_some_eq (p : Client) (method spath : String) (body : List Nat)
    (m : List (String × String)) (hnd : (m.map Prod.fst).Nodup) :
    p.newRequest method spath body (some m) =
      match NewRequest method (URL.String (endpointWith spath
        ("&".intercalate ((sortedParams m).map querySegment)))) body with
      | Except.error err => Except.error err
      | Except.ok req => Except.ok (p.Headers req) := by
  unfold Client.newRequest parsedENDPOINT endpointWith
  simp only [String.empty_append]
  rw [values_fold_set m [] hnd (fun _ _ => by simp), List.nil_append,
    encode_eq_intercalate m hnd]

theorem newRequest_ok_url (p : Client) (method url : String) (body : List Nat) (req : Request)
    (h : (match NewRequest method url body with
      | Except.error err => Except.error err
      | Except.ok r => Except.ok (p.Headers r)) = Except.ok req) : req.URL = url := by
  unfold NewRequest at h
  simp only at h
  split_ifs at h
  · simp only [Except.ok.injEq] at h
    rw [← h]
    rfl
  · simp only [Except.ok.injEq] at h
    rw [← h]
    rfl

theorem querySegment_injective : Function.Injective querySegment := by
  rintro ⟨k, v⟩ ⟨k', v'⟩ h
  unfold querySegment at h
  have hd := congrArg String.data h
  simp only [String.data_append] at hd
  rw [List.append_assoc, List.append_assoc, List.singleton_append,
    List.singleton_append] at hd
  obtain ⟨h1, _, h2⟩ := (List.append_cons_inj_of_not_mem (queryEscape_no_eq k)
    (queryEscape_no_eq v)).mp hd
  rw [queryEscape_inj (String.ext h1), queryEscape_inj (String.ext h2)]

theorem nodup_of_nodup_keys (m : List (String × String)) (h : (m.map Prod.fst).Nodup) :
    m.Nodup :=
  List.Nodup.of_map Prod.fst h

theorem newRequest_none_eq (p : Client) (method spath : String) (body : List Nat) :
    p.newRequest method spath body none = p.newRequest method spath body (some []) := by
  rfl

theorem newRequest_url_sorted (p : Client) (method spath : String) (body : List Nat)
    (m : List (String × String)) (req : Request) (hkeys : (m.map Prod.fst).Nodup)
    (h : p.newRequest method spath body (some m) = Except.ok req) :
    req.URL = URL.String (endpointWith spath "") ++
      (if m = [] then "" else "?" ++ "&".intercalate ((sortedParams m).map querySegment)) := by
  rw [newRequest_some_eq p method spath body m hkeys] at h
  rw [newRequest_ok_url p method _ body req h, url_string_query]
  by_cases hm : m = []
  · subst hm
    rfl
  · have hne : "&".intercalate ((sortedParams m).map querySegment) ≠ "" :=
      intercalate_segments_ne_empty _ (fun he => hm ((sortedParams_eq_nil_iff m hkeys).mp he))
    rw [if_pos hne, if_neg hm]

/-! ## The request builder -/

/-- C1: for a valid relative path and a parameter mapping (a nil pointer counts
as the empty mapping) the URL of the request that `newRequest` builds is the
base endpoint, the path exactly as given, and, when there are parameters, a
question mark and the segments `QueryEscape key = QueryEscape value` joined by
ampersands; the segments are those of the supplied parameters in some order, and
the segment of each supplied parameter occurs exactly once among them. -/
theorem newRequest_url (p : Client) (method spath : String) (body : List Nat)
    (params : Option (List (String × String))) (req : Request)
    (hpath : validPath spath) (hkeys : ((params.getD []).map Prod.fst).Nodup)
    (h : p.newRequest method spath body params = Except.ok req) :
    ∃ ordered : List (String × String), ordered.Perm (params.getD []) ∧
      req.URL = ENDPOINT ++ spath ++
        (if params.getD [] = [] then ""
          else "?" ++ "&".intercalate (ordered.map querySegment)) ∧
      ∀ kv ∈ params.getD [], (ordered.map querySegment).count (querySegment kv) = 1 := by
  have h' : p.newRequest method spath body (some (params.getD [])) = Except.ok req := by
    cases params with
    | none => exact (newRequest_none_eq p method spath body).symm.trans h
    | some m => exact h
  have hperm := sortedParams_perm (params.getD []) hkeys
  refine ⟨sortedParams (params.getD []), hperm, ?_, ?_⟩
  · rw [newRequest_url_sorted p method spath body _ req hkeys h',
      url_string_endpoint spath "" hpath]
    simp only [ne_eq, not_true_eq_false, if_false, String.append_empty]
  · intro kv hkv
    rw [List.count_map_of_injective _ _ querySegment_injective]
    exact List.count_eq_one_of_mem (hperm.nodup_iff.mpr (nodup_of_nodup_keys _ hkeys))
      (hperm.symm.subset hkv)

/-- Witness of C1: two parameters, visited in the order `b`, `a`. -/
theorem newRequest_url_witness :
    validPath "/v1/x" ∧
      ∃ ordered : List (String × String), ordered.Perm [("b", "2"), ("a", "1")] ∧
        "https://api.deversifi.com/v1/x?a=1&b=2" = ENDPOINT ++ "/v1/x" ++
          (if [("b", "2"), ("a", "1")] = ([] : List (String × String)) then ""
            else "?" ++ "&".intercalate (ordered.map querySegment)) ∧
        ∀ kv ∈ [(("b" : String), ("2" : String)), ("a", "1")],
          (ordered.map querySegment).count (querySegment kv) = 1 :=
  ⟨by decide,
    newRequest_url (sampleClient sampleKey) "GET" "/v1/x" [] (some [("b", "2"), ("a", "1")])
      { Method := "GET", URL := "https://api.deversifi.com/v1/x?a=1&b=2",
        Header := [("Accept", ["application/json"]),
          ("Content-Type", ["application/json; charset=UTF-8"])],
        Body := [] }
      (by decide) (by decide) rfl⟩

/-- Counterexample to C9 as stated: the map with the keys `a` and `b`, visited
in the order `b`, `a`, is encoded as `a=1&b=2`, not in the order of the visit,
and the other order of visit gives the same URL. -/
theorem newRequest_order_counterexample :
    (((sampleClient sampleKey).newRequest "GET" "/v1/x" []
        (some [("b", "2"), ("a", "1")])).toOption.map Request.URL =
      some "https://api.deversifi.com/v1/x?a=1&b=2") ∧
    (((sampleClient sampleKey).newRequest "GET" "/v1/x" []
        (some [("a", "1"), ("b", "2")])).toOption.map Request.URL =
      some "https://api.deversifi.com/v1/x?a=1&b=2") ∧
    (((sampleClient sampleKey).newRequest "GET" "/v1/x" []
        (some [("b", "2"), ("a", "1")])).toOption.map Request.URL ≠
      some "https://api.deversifi.com/v1/x?b=2&a=1") := by
  refine ⟨by decide, by decide, by decide⟩

/-- C9 as amended: the query parameters are written in ascending order of their
keys, whatever order the loop visits the map in; two visits of the same mapping
(method, path and body equal) yield the same request, hence the same query
string. -/
theorem newRequest_order_sorted (p : Client) (method spath : String) (body : List Nat)
    (m m' : List (String × String)) (hperm : m.Perm m') (hkeys : (m.map Prod.fst).Nodup) :
    p.newRequest method spath body (some m) = p.newRequest method spath body (some m') ∧
      ∃ ordered : List (String × String), ordered.Perm m ∧
        (ordered.map Prod.fst).Sorted goStringLE ∧
        ∀ req, p.newRequest method spath body (some m) = Except.ok req →
          req.URL = URL.String (endpointWith spath "") ++
            (if m = [] then "" else "?" ++ "&".intercalate (ordered.map querySegment)) := by
  have hkeys' : (m'.map Prod.fst).Nodup := (hperm.map Prod.fst).nodup_iff.mp hkeys
  refine ⟨?_, sortedParams m, sortedParams_perm m hkeys, ?_, ?_⟩
  · rw [newRequest_some_eq p method spath body m hkeys,
      newRequest_some_eq p method spath body m' hkeys',
      sortedParams_eq_of_perm m m' hperm hkeys]
  · rw [sortedParams_keys]
    exact sortStrings_sorted _
  · intro req h
    exact newRequest_url_sorted p method spath body m req hkeys h

/-- Witness of C9 as amended: the two orders of visit of the map with the keys
`a` and `b`. -/
theorem newRequest_order_sorted_witness :
    (sampleClient sampleKey).newRequest "GET" "/v1/x" [] (some [("b", "2"), ("a", "1")]) =
      (sampleClient sampleKey).newRequest "GET" "/v1/x" [] (some [("a", "1"), ("b", "2")]) :=
  (newRequest_order_sorted (sampleClient sampleKey) "GET" "/v1/x" []
    [("b", "2"), ("a", "1")] [("a", "1"), ("b", "2")] (List.Perm.swap _ _ _) (by decide)).1

/-! ## Sanity of the modelled constants and totality of the builder -/

theorem parsedENDPOINT_string : parsedENDPOINT.String = ENDPOINT := by
  decide

theorem newRequest_ok_of_validMethod (p : Client) (method spath : String) (body : List Nat)
    (params : Option (List (String × String)))
    (h : validMethod (if method = "" then "GET" else method) = true) :
    ∃ req, p.newRequest method spath body params = Except.ok req := by
  unfold Client.newRequest NewRequest
  simp only [h, Bool.not_true, Bool.false_eq_true, if_false]
  exact ⟨_, rfl⟩

theorem newRequest_error_of_invalidMethod (p : Client) (method spath : String)
    (body : List Nat) (params : Option (List (String × String)))
    (h : validMethod (if method = "" then "GET" else method) = false) :
    ∃ err, p.newRequest method spath body params = Except.error err := by
  unfold Client.newRequest NewRequest
  simp only [h, Bool.not_false, if_true]
  exact ⟨_, rfl⟩

end dvfapi
